import Mathlib

/-!
Verification of the fdemanager daemon core: the peer-credential listener and
its address grammar, the command dispatch (access gateway), the overlord
scheduler (EnsureBefore / Settle / Stop) and the daemon lifecycle Stop.

Go strings are modelled as `String` (with most reasoning on `String.data`,
i.e. `List Char`), machine integers as `Nat` with explicit `2 ^ 32` bounds,
fallible Go calls as `Except`/`Option`, and `nil` function or interface
fields as `Option`.
-/

namespace Fdemanager

/-! ## Decimal digits (Go `fmt.Sprintf("%d")` / `strconv.Parse{Int,Uint}`) -/

/-- Little-endian decimal digits, fuel-driven so the kernel can evaluate it
(the fuel is an upper bound on the digit count; `natDigitsRev` supplies a
sufficient one). -/
def natDigitsRevAux : Nat → Nat → List Nat
  | 0, _ => []
  | fuel + 1, n => if n = 0 then [] else (n % 10) :: natDigitsRevAux fuel (n / 10)

/-- Little-endian decimal digits of a natural number (empty for 0). -/
def natDigitsRev (n : Nat) : List Nat :=
  natDigitsRevAux n n

/-- The value of a little-endian digit list. -/
def lval : List Nat → Nat
  | [] => 0
  | d :: ds => d + 10 * lval ds

/-- The character for one decimal digit. -/
def digitChar (d : Nat) : Char :=
  match d with
  | 0 => '0' | 1 => '1' | 2 => '2' | 3 => '3' | 4 => '4'
  | 5 => '5' | 6 => '6' | 7 => '7' | 8 => '8' | _ => '9'

/-- Decimal rendering of a natural number, as Go's `fmt.Sprintf("%d", n)`. -/
def goFormatNat (n : Nat) : List Char :=
  if n = 0 then ['0'] else ((natDigitsRev n).reverse).map digitChar

/-- Numeric value of a big-endian digit-character list, as Go's
`strconv.ParseUint(s, 10, _)` computes it (overflow checked separately). -/
def digitsToNat (l : List Char) : Nat :=
  l.foldl (fun a c => 10 * a + (c.toNat - 48)) 0

/-! ## List-level string utilities used by the address parser -/

/-- Whether `p` is an initial segment of `s` (Go `strings.HasPrefix`). -/
def startsWithL : List Char → List Char → Bool
  | [], _ => true
  | _ :: _, [] => false
  | p :: ps, c :: cs => p == c && startsWithL ps cs

/-- Whether `pat` occurs as a contiguous substring of `s`
(Go `strings.Contains`). -/
def containsL (pat : List Char) : List Char → Bool
  | [] => startsWithL pat []
  | c :: cs => startsWithL pat (c :: cs) || containsL pat cs

/-- Drop the initial segment `p` from `s`, failing if `p` is not an initial
segment. -/
def dropStart : List Char → List Char → Option (List Char)
  | [], s => some s
  | _ :: _, [] => none
  | p :: ps, c :: cs => if p = c then dropStart ps cs else none

/-- Split at the first `';'`: returns the field before it and the remainder
after it; fails when no `';'` occurs. -/
def takeField : List Char → Option (List Char × List Char)
  | [] => none
  | c :: cs =>
    if c = ';' then some ([], cs)
    else (takeField cs).map (fun fr => (c :: fr.1, fr.2))

/-- Strip one required trailing `';'`: `takeSocket l = some S` iff
`l = S ++ [';']`, i.e. the socket field is everything before the mandatory
final semicolon of the grammar. -/
def takeSocket : List Char → Option (List Char)
  | [] => none
  | [c] => if c = ';' then some [] else none
  | c :: c2 :: cs => (takeSocket (c2 :: cs)).map (c :: ·)

/-! ## Peer-credential identity (`ucrednet`)

The repository's `internal/daemon/ucrednet.go` is not among the provided
sources; only its test file (`ucrednet_test.go`) and the test-export
aliases (`Ucrednet`, `UcrednetListener`, `UcrednetGet`, `ErrNoID`,
`MockGetUcred`) are. The definitions below are therefore modelled from the
spec (§4.2, §6, §8), with behavior cross-checked against the in-repo tests.
-/

/-- Modelled from the spec: the `ucrednet` identity `{processId, userId,
originalSocketAddress}` attached to a connection (missing source file
`internal/daemon/ucrednet.go`). -/
structure ucrednet where
  pid : Nat
  uid : Nat
  socket : List Char
deriving DecidableEq

/-- The `pid=` field marker of the synthetic address grammar. -/
def pidMarker : List Char := ['p', 'i', 'd', '=']

/-- The `uid=` field marker of the synthetic address grammar. -/
def uidMarker : List Char := ['u', 'i', 'd', '=']

/-- The `socket=` field marker of the synthetic address grammar. -/
def socketMarker : List Char := ['s', 'o', 'c', 'k', 'e', 't', '=']

/-- Modelled from the spec: `ucrednetGet` (exported to tests as
`UcrednetGet`, the spec's `ParseIdentity`), the strict parser for the
grammar `pid=<uint32>;uid=<uint32>;socket=<string>;` (missing source file
`internal/daemon/ucrednet.go`). Rejections: absent or non-numeric or
out-of-32-bit-range `pid`/`uid` fields, any string not matching the
grammar exactly, and a second occurrence of the `pid=` marker after the
complete first field set. `none` models the single uniform
`(nil, errNoID)` outcome; a populated identity is returned only on full
success, never partially. -/
def ucrednetGetL (s : List Char) : Option ucrednet :=
  (dropStart pidMarker s).bind fun s1 =>
  (takeField s1).bind fun fp2 =>
  if fp2.1 ≠ [] ∧ fp2.1.all Char.isDigit = true ∧ digitsToNat fp2.1 < 2 ^ 32 then
    (dropStart uidMarker fp2.2).bind fun s3 =>
    (takeField s3).bind fun fu4 =>
    if fu4.1 ≠ [] ∧ fu4.1.all Char.isDigit = true ∧ digitsToNat fu4.1 < 2 ^ 32 then
      (dropStart socketMarker fu4.2).bind fun s5 =>
      if containsL pidMarker s5 then none
      else
        (takeSocket s5).map fun sk =>
          ⟨digitsToNat fp2.1, digitsToNat fu4.1, sk⟩
    else none
  else none

/-- `ucrednetGet` on Go strings; `none` is the `errNoID` ("no identifiable
peer") outcome. -/
def ucrednetGet (s : String) : Option ucrednet :=
  ucrednetGetL s.data

/-- Modelled from the spec: the address formatter (`ucrednetAddr.String`,
missing source file `internal/daemon/ucrednet.go`) for a resolved
identity — `pid=<P>;uid=<U>;socket=<original-address>;`, each field exactly
once, trailing semicolon required (§4.2, §6). -/
def formatUcrednetAddrL (pid uid : Nat) (socket : List Char) : List Char :=
  pidMarker ++ goFormatNat pid ++
    ';' :: (uidMarker ++ goFormatNat uid ++
      ';' :: (socketMarker ++ socket ++ [';']))

/-- String-level address formatter. -/
def formatUcrednetAddr (pid uid : Nat) (socket : String) : String :=
  ⟨formatUcrednetAddrL pid uid socket.data⟩

/-- Modelled from the spec: the remote-address string for a connection with
no resolved identity — the in-repo test `TestNonUnix`
(`ucrednet_test.go:106`) checks it matches `pid=;uid=;.*`. -/
def emptyUcrednetAddrL (socket : List Char) : List Char :=
  pidMarker ++ ';' :: (uidMarker ++ ';' :: (socketMarker ++ socket ++ [';']))

/-- The spec's grammar for a well-formed synthetic peer address (§6):
`pid=<uint32>;uid=<uint32>;socket=<string>;`, with the additional §4.2
restriction that no second `pid=` marker follows the complete first field
set. -/
def matchesUcrednetGrammar (s : List Char) : Prop :=
  ∃ fp fu sk,
    s = pidMarker ++ fp ++
      ';' :: (uidMarker ++ fu ++ ';' :: (socketMarker ++ sk ++ [';'])) ∧
    fp ≠ [] ∧ fp.all Char.isDigit = true ∧ digitsToNat fp < 2 ^ 32 ∧
    fu ≠ [] ∧ fu.all Char.isDigit = true ∧ digitsToNat fu < 2 ^ 32 ∧
    containsL pidMarker (sk ++ [';']) = false

/-! ## Peer-credential listener (`ucrednetListener.Accept`) -/

/-- A connection as returned by the wrapped listener's `Accept`: whether the
Go type assertion to a Unix-domain connection succeeds, and its original
remote-address string. -/
structure rawConn where
  isUnix : Bool
  remoteAddr : List Char
deriving DecidableEq

/-- A connection wrapped by the peer-credential listener, exposing the
synthetic remote-address string. -/
structure ucrednetConn where
  remoteAddrString : List Char
deriving DecidableEq

/-- Modelled from the spec: `ucrednetListener.Accept` (missing source file
`internal/daemon/ucrednet.go`). Per §4.2, `Accept` delegates to the wrapped
listener (whose error propagates), and a non-Unix connection type proceeds
with an empty identity. For a Unix connection the kernel peer credentials
are resolved via the swappable `getUcred` call; the in-repo test
`TestUcredErrors` (`ucrednet_test.go:127-146`) asserts that a `getUcred`
failure is returned from `Accept` (`c.Assert(err, Equals, s.err)`), so that
OS-call failure propagates here, overriding the spec's
"proceed with an empty identity" wording for that case. On success the
connection's reported remote address becomes
`pid=<P>;uid=<U>;socket=<original-address>;`. -/
def ucrednetAccept (acceptRes : Except String rawConn)
    (getUcredRes : Except String (Nat × Nat)) : Except String ucrednetConn :=
  match acceptRes with
  | .error e => .error e
  | .ok conn =>
    if conn.isUnix then
      match getUcredRes with
      | .error e => .error e
      | .ok pu =>
        .ok ⟨formatUcrednetAddrL pu.1 pu.2 conn.remoteAddr⟩
    else
      .ok ⟨emptyUcrednetAddrL conn.remoteAddr⟩

/-! ## Access gateway: `command.Run` (`internal/daemon/command.go`) -/

/-- Kernel peer credentials, as Go's `syscall.Ucred` (pid, uid, gid). -/
structure Ucred where
  pid : Nat
  uid : Nat
  gid : Nat
deriving DecidableEq

/-- An `apiError` (`internal/daemon/errors.go:31-38`): HTTP status, human
message and machine-readable kind (`""` when unset; `makeErrorResponder`
sets neither `Kind` nor the structured `Value`, so `Value` is omitted
here). -/
structure apiError where
  status : Nat
  message : String
  kind : String
deriving DecidableEq

/-- `makeErrorResponder` (`errors.go:85-98`): builds an error responder for
one status; the model takes the already-formatted message. -/
def makeErrorResponder (status : Nat) (msg : String) : apiError :=
  ⟨status, msg, ""⟩

/-- `statusMethodNotAllowed` (`errors.go:105`). -/
def statusMethodNotAllowed (msg : String) : apiError :=
  makeErrorResponder 405 msg

/-- `statusInternalError` (`errors.go:106`). -/
def statusInternalError (msg : String) : apiError :=
  makeErrorResponder 500 msg

/-- A `response`: an `apiError` or an opaque handler-produced response. -/
inductive response where
  | err (e : apiError)
  | handlerResp (tag : Nat)
deriving DecidableEq

/-- An HTTP request method. -/
inductive Method where
  | GET
  | PUT
  | POST
  | other (name : String)
deriving DecidableEq

/-- The method's name as it appears in `r.Method`. -/
def methodName : Method → String
  | .GET => "GET"
  | .PUT => "PUT"
  | .POST => "POST"
  | .other s => s

/-- Go's `strconv.ParseBool`: exactly these twelve strings parse. -/
def goParseBool (s : String) : Option Bool :=
  if s = "1" ∨ s = "t" ∨ s = "T" ∨ s = "TRUE" ∨ s = "true" ∨ s = "True" then
    some true
  else if s = "0" ∨ s = "f" ∨ s = "F" ∨ s = "FALSE" ∨ s = "false" ∨ s = "False" then
    some false
  else none

/-- The allow-interactive header handling in `command.Run`
(`command.go:86-94`): empty header means `false`; a malformed value is
logged and treated as `false`, never fatal. -/
def parseAllowInteraction (allowHeader : String) : Bool :=
  if allowHeader = "" then false
  else
    match goParseBool allowHeader with
    | some b => b
    | none => false

/-- An abstract `net.Conn` reference (identity only). -/
structure Conn where
  id : Nat
deriving DecidableEq

/-- A `command` (`command.go:38-49`): per-verb handlers and the two access
checkers. A handler is modelled by the `response` it returns for the
dispatched request (`nil` handler field = `none`); an access checker by its
`CheckAccess(d, ucred, allowInteractive)` function (`nil` checker =
`none`), returning `some` structured `apiError` to deny, `none` to
allow. -/
structure command where
  GET : Option response
  PUT : Option response
  POST : Option response
  ReadAccess : Option (Ucred → Bool → Option apiError)
  WriteAccess : Option (Ucred → Bool → Option apiError)

/-- The verb switch of `command.Run` (`command.go:67-77`), handler half:
no case for verbs other than GET/PUT/POST, so `rspf` stays `nil`. -/
def selectHandler (c : command) : Method → Option response
  | .GET => c.GET
  | .PUT => c.PUT
  | .POST => c.POST
  | .other _ => none

/-- The verb switch of `command.Run` (`command.go:67-77`), access half:
GET uses `ReadAccess`, PUT and POST use `WriteAccess`. -/
def selectAccess (c : command) : Method → Option (Ucred → Bool → Option apiError)
  | .GET => c.ReadAccess
  | .PUT => c.WriteAccess
  | .POST => c.WriteAccess
  | .other _ => none

/-- Observable milestones of one `command.Run` dispatch, in order. -/
inductive RunEvent where
  | accessChecked
  | handlerInvoked
deriving DecidableEq

/-- `command.Run` (`command.go:51-99`). `connCtx` is the connection bound
into the request context by `Daemon.Start`; `none` makes the Go code panic
(`logger.Panicf("no connection associated with request")`), modelled as the
`none` result. `peerCred` is `netutil.ConnPeerCred` applied to that
connection. On success the response is returned together with the ordered
trace of access-check and handler-invocation events. -/
def commandRun (c : command) (connCtx : Option Conn)
    (peerCred : Conn → Except String Ucred)
    (method : Method) (allowHeader : String) :
    Option (response × List RunEvent) :=
  match connCtx with
  | none => none
  | some conn =>
    match peerCred conn with
    | .error e => some (.err (statusInternalError e), [])
    | .ok ucred =>
      match selectHandler c method with
      | none =>
        some (.err (statusMethodNotAllowed
          ("method \"" ++ methodName method ++ "\" not allowed")), [])
      | some rsp =>
        match selectAccess c method with
        | none =>
          some (.err (statusInternalError
            ("no access checker for method \"" ++ methodName method ++ "\"")), [])
        | some chk =>
          match chk ucred (parseAllowInteraction allowHeader) with
          | some ae => some (.err ae, [.accessChecked])
          | none => some (rsp, [.accessChecked, .handlerInvoked])

/-! ## Overlord ensure scheduling (`internal/overlord`, `Overlord.ensureBefore`) -/

/-- The overlord's ensure-scheduling state guarded by `ensureLock`: the
armed ensure timer — `none` before `Loop` has run `ensureTimerSetup` —
modelled by its absolute expiry instant, and the recorded deadline
`ensureNext`. Time is a discrete clock (`Nat`). -/
structure EnsureSched where
  timer : Option Nat
  next : Nat
deriving DecidableEq

/-- `Overlord.ensureBefore d` at clock `now`. `none` models the panic
"cannot use EnsureBefore before Overlord.Loop". If `now + d` is before
`ensureNext`, the timer is reset to `d` (expiring at `now + d`) and the
deadline updated. Otherwise, if the deadline has already elapsed, the code
stops the timer: Go's `Timer.Stop` reports `false` when the timer has
already expired (`exp ≤ now`), in which case the code returns with the
fire already pending; when `Stop` succeeds, `Reset(0)` makes the timer
fire immediately and `ensureNext` becomes `now`. -/
def ensureBefore (s : EnsureSched) (now d : Nat) : Option EnsureSched :=
  match s.timer with
  | none => none
  | some exp =>
    let next := now + d
    if next < s.next then some ⟨some (now + d), next⟩
    else if s.next < now then
      if exp ≤ now then some s
      else some ⟨some now, now⟩
    else some s

/-- A sequence of `EnsureBefore` requests, all issued at clock `now` (from
any tasks, including inside a running ensure cycle). -/
def ensureBeforeMany (s : EnsureSched) (now : Nat) : List Nat → Option EnsureSched
  | [] => some s
  | d :: ds =>
    match ensureBefore s now d with
    | none => none
    | some s1 => ensureBeforeMany s1 now ds

/-- `Overlord.ensureTimerSetup` / `ensureTimerReset`: arm the timer for
`now + interval` and record that instant as the deadline — establishing
the invariant that the armed timer's expiry equals `ensureNext`. -/
def ensureTimerArm (now interval : Nat) : EnsureSched :=
  ⟨some (now + interval), now + interval⟩

/-! ## Overlord Settle (`Overlord.settle`) -/

/-- The environment one `settle` run works against: for each cycle `i`,
`cycleErrs i` is the list of error messages `stateEng.Ensure()` contributes
(`[]` for a nil error; an `ensureError`'s list arrives already flattened,
matching the `append(errs, ee.errs...)` branch); `moved i` is whether
`o.ensureNext` differs from the deadline recorded just before cycle `i`
(i.e. work requested an earlier wake-up mid-cycle); `uncleanReady i` is
whether some ready change has not finished cleanup afterwards. -/
structure SettleEnv where
  cycleErrs : Nat → List String
  moved : Nat → Bool
  uncleanReady : Nat → Bool

/-- Outcome of `Overlord.settle`: nil, one plain error, or an
`ensureError` aggregating messages. -/
inductive SettleOutcome where
  | ok
  | plainErr (msg : String)
  | ensureErrs (msgs : List String)
deriving DecidableEq

/-- The timeout return of `settle`: the plain "Settle is not converging"
error, combined into one `ensureError` with all per-cycle errors collected
so far when there are any. -/
def settleTimeoutOutcome (errs : List String) : SettleOutcome :=
  if errs = [] then .plainErr "Settle is not converging"
  else .ensureErrs (errs ++ ["Settle is not converging"])

/-- The `settle` loop. `cdur` is the positive wall-clock duration one
cycle takes, so `i * cdur` is `time.Since(t0)` at the top of iteration
`i`; the timeout check (`timeout > 0 && time.Since(t0) > timeout`) runs
before each cycle. A cycle appends its errors; the run converges when the
deadline did not move and every ready change is clean. `fuel` makes the
model total: `none` is returned only when fuel runs out, modelling the
real loop's potential non-termination (e.g. with `timeout = 0`). -/
def settleGo (env : SettleEnv) (timeout cdur : Nat) :
    Nat → Nat → List String → Option SettleOutcome
  | 0, _, _ => none
  | fuel + 1, i, errs =>
    if 0 < timeout ∧ timeout < i * cdur then some (settleTimeoutOutcome errs)
    else
      let errs1 := errs ++ env.cycleErrs i
      if env.moved i = false ∧ env.uncleanReady i = false then
        some (if errs1 = [] then .ok else .ensureErrs errs1)
      else settleGo env timeout cdur fuel (i + 1) errs1

/-- `Overlord.settle timeout` run from the start. -/
def settleModel (env : SettleEnv) (timeout cdur fuel : Nat) : Option SettleOutcome :=
  settleGo env timeout cdur fuel 0 []

/-! ## Overlord Stop and pruning (`Overlord.prune` / `Overlord.Stop`) -/

/-- Observable events of the overlord lifetime and `Stop`. -/
inductive OverlordEvent where
  | killLoop
  | waitLoop
  | pruneRun
  | stopEngine
  | releaseLock
deriving DecidableEq

/-- The overlord state relevant to pruning: whether a prune pass has run
during this process's lifetime (`didPrune`). -/
structure OverlordSt where
  didPrune : Bool
deriving DecidableEq

/-- `Overlord.prune`: runs one `st.Prune(...)` pass under the state lock
and records `didPrune = true`. -/
def overlordPrune (_ : OverlordSt) : OverlordSt × List OverlordEvent :=
  (⟨true⟩, [.pruneRun])

/-- One iteration of the `Loop` select as far as pruning is concerned: a
prune-ticker fire triggers `prune()` inline. -/
def loopTick (s : OverlordSt) (pruneTick : Bool) : OverlordSt × List OverlordEvent :=
  if pruneTick then overlordPrune s else (s, [])

/-- A lifetime of loop iterations, each with or without a prune tick. -/
def loopRun (s : OverlordSt) : List Bool → OverlordSt × List OverlordEvent
  | [] => (s, [])
  | t :: ts =>
    let r1 := loopTick s t
    let r2 := loopRun r1.1 ts
    (r2.1, r1.2 ++ r2.2)

/-- `Overlord.Stop`: kill and await the loop task, run one prune pass iff
none has run during this lifetime, stop the engine's managers, release the
state lock; returns the loop's error. -/
def overlordStop (s : OverlordSt) (loopErr : Option String) :
    OverlordSt × List OverlordEvent × Option String :=
  let pr := if s.didPrune = false then overlordPrune s else (s, [])
  (pr.1, [.killLoop, .waitLoop] ++ pr.2 ++ [.stopEngine, .releaseLock], loopErr)

/-! ## Daemon lifecycle Stop (`internal/daemon/daemon.go:252-304`) -/

/-- The error the daemon's tomb reports after shutdown: Go's
`context.DeadlineExceeded` (graceful HTTP shutdown hit `shutdownTimeout`)
or any other internal error; `none` is a clean wait. -/
inductive TombErr where
  | deadlineExceeded
  | other (msg : String)
deriving DecidableEq

/-- The result of `Daemon.Stop`: nil, the `ErrRestartSocket` sentinel, or a
propagated internal error. -/
inductive StopErr where
  | errRestartSocket
  | internal (msg : String)
deriving DecidableEq

/-- What `Daemon.Stop` leaves behind: the final `d.restartSocket` field,
whether in-flight connections were force-closed, and the returned error. -/
structure DaemonStopResult where
  restartSocket : Bool
  forceClosed : Bool
  result : Option StopErr
deriving DecidableEq

/-- `Daemon.Stop` (`daemon.go:252-304`): with `restartSocket` the flag at
entry, `canStandby` the post-drain `standbyOpinions.CanStandby()` verdict
and `tombWaitErr` the `tomb.Wait()` outcome. A flagged socket restart is
downgraded (`d.restartSocket = false`) when standby opinions no longer
agree; `context.DeadlineExceeded` is a soft failure (warn, force-close,
continue); any other error returns immediately; otherwise the sentinel is
returned iff the (possibly downgraded) flag is still set. -/
def daemonStop (restartSocket canStandby : Bool)
    (tombWaitErr : Option TombErr) : DaemonStopResult :=
  let rs := if restartSocket && !canStandby then false else restartSocket
  match tombWaitErr with
  | some .deadlineExceeded =>
    { restartSocket := rs, forceClosed := true,
      result := if rs then some .errRestartSocket else none }
  | some (.other m) =>
    { restartSocket := rs, forceClosed := false,
      result := some (.internal m) }
  | none =>
    { restartSocket := rs, forceClosed := false,
      result := if rs then some .errRestartSocket else none }

/-! # Theorems -/

/-! ## Decimal layer -/

theorem natDigitsRevAux_fuel :
    ∀ f1 : Nat, ∀ n f2 : Nat, n ≤ f1 → n ≤ f2 →
      natDigitsRevAux f1 n = natDigitsRevAux f2 n := by
  intro f1
  induction f1 with
  | zero =>
    intro n f2 h1 _
    interval_cases n
    cases f2 <;> simp [natDigitsRevAux]
  | succ f ih =>
    intro n f2 h1 h2
    by_cases h : n = 0
    · subst h
      cases f2 <;> simp [natDigitsRevAux]
    · obtain ⟨g, rfl⟩ : ∃ g, f2 = g + 1 :=
        ⟨f2 - 1, by omega⟩
      simp only [natDigitsRevAux, h, if_false]
      have hlt : n / 10 < n := Nat.div_lt_self (Nat.pos_of_ne_zero h) (by decide)
      rw [ih (n / 10) g (by omega) (by omega)]

theorem natDigitsRev_eq (n : Nat) :
    natDigitsRev n = if n = 0 then [] else (n % 10) :: natDigitsRev (n / 10) := by
  by_cases h : n = 0
  · simp [h, natDigitsRev, natDigitsRevAux]
  · obtain ⟨m, rfl⟩ : ∃ m, n = m + 1 := ⟨n - 1, by omega⟩
    simp only [h, if_false]
    unfold natDigitsRev
    simp only [natDigitsRevAux, h, if_false]
    have hlt : (m + 1) / 10 < m + 1 := Nat.div_lt_self (by omega) (by decide)
    rw [natDigitsRevAux_fuel m ((m + 1) / 10) ((m + 1) / 10) (by omega) le_rfl]

theorem lval_natDigitsRev (n : Nat) : lval (natDigitsRev n) = n := by
  induction n using Nat.strong_induction_on with
  | _ n ih =>
    rw [natDigitsRev_eq]
    by_cases h : n = 0
    · simp [h, lval]
    · simp only [h, if_false, lval]
      rw [ih (n / 10) (Nat.div_lt_self (Nat.pos_of_ne_zero h) (by decide))]
      omega

theorem natDigitsRev_lt (n : Nat) : ∀ d ∈ natDigitsRev n, d < 10 := by
  induction n using Nat.strong_induction_on with
  | _ n ih =>
    rw [natDigitsRev_eq]
    by_cases h : n = 0
    · simp [h]
    · simp only [h, if_false, List.mem_cons]
      rintro d (rfl | hd)
      · exact Nat.mod_lt _ (by decide)
      · exact ih (n / 10) (Nat.div_lt_self (Nat.pos_of_ne_zero h) (by decide)) d hd

theorem digitChar_val {d : Nat} (h : d < 10) : (digitChar d).toNat - 48 = d := by
  interval_cases d <;> rfl

theorem digitChar_isDigit {d : Nat} (h : d < 10) : (digitChar d).isDigit = true := by
  interval_cases d <;> rfl

theorem digitChar_ne_semi (d : Nat) : digitChar d ≠ ';' := by
  unfold digitChar
  split <;> decide

theorem foldl_digits (ds : List Nat) (h : ∀ d ∈ ds, d < 10) (a : Nat) :
    (ds.reverse.map digitChar).foldl (fun a c => 10 * a + (c.toNat - 48)) a =
      a * 10 ^ ds.length + lval ds := by
  induction ds generalizing a with
  | nil => simp [lval]
  | cons d ds ih =>
    simp only [List.reverse_cons, List.map_append, List.foldl_append, List.map_cons,
      List.map_nil, List.foldl_cons, List.foldl_nil, lval]
    rw [ih (fun x hx => h x (List.mem_cons_of_mem _ hx))]
    rw [digitChar_val (h d (List.mem_cons_self _ _))]
    simp only [List.length_cons, pow_succ]
    ring

theorem digitsToNat_goFormatNat (n : Nat) : digitsToNat (goFormatNat n) = n := by
  unfold goFormatNat digitsToNat
  by_cases h : n = 0
  · simp [h]
  · simp only [h, if_false]
    rw [foldl_digits _ (natDigitsRev_lt n) 0, lval_natDigitsRev]
    simp

theorem goFormatNat_digits (n : Nat) : (goFormatNat n).all Char.isDigit = true := by
  unfold goFormatNat
  by_cases h : n = 0
  · simp [h]
  · simp only [h, if_false, List.all_eq_true]
    intro c hc
    simp only [List.mem_map, List.mem_reverse] at hc
    obtain ⟨d, hd, rfl⟩ := hc
    exact digitChar_isDigit (natDigitsRev_lt n d hd)

theorem goFormatNat_ne_nil (n : Nat) : goFormatNat n ≠ [] := by
  unfold goFormatNat
  by_cases h : n = 0
  · simp [h]
  · simp only [h, if_false]
    intro hc
    rw [List.map_eq_nil_iff, List.reverse_eq_nil_iff] at hc
    rw [natDigitsRev_eq] at hc
    simp [h] at hc

theorem goFormatNat_no_semi (n : Nat) : ';' ∉ goFormatNat n := by
  unfold goFormatNat
  by_cases h : n = 0
  · simp [h]
  · simp only [h, if_false, List.mem_map, List.mem_reverse]
    rintro ⟨d, _, hd⟩
    exact digitChar_ne_semi d hd

/-! ## List utility layer -/

theorem dropStart_append (p s : List Char) : dropStart p (p ++ s) = some s := by
  induction p with
  | nil => rfl
  | cons c cs ih => simp [dropStart, ih]

theorem dropStart_sound {p s r : List Char} (h : dropStart p s = some r) :
    s = p ++ r := by
  induction p generalizing s with
  | nil =>
    simp only [dropStart, Option.some.injEq] at h
    simp [h]
  | cons c cs ih =>
    cases s with
    | nil => simp [dropStart] at h
    | cons a as =>
      simp only [dropStart] at h
      split at h
      · next he => simpa [he] using ih h
      · exact absurd h (by simp)

theorem takeField_append (f r : List Char) (hf : ';' ∉ f) :
    takeField (f ++ ';' :: r) = some (f, r) := by
  induction f with
  | nil => rfl
  | cons c cs ih =>
    have hc : c ≠ ';' := fun hc => hf (hc ▸ List.mem_cons_self _ _)
    simp only [List.cons_append, takeField, hc, if_false, List.append_eq]
    rw [ih (fun hm => hf (List.mem_cons_of_mem _ hm))]
    rfl

theorem takeField_sound {s : List Char} {f r : List Char}
    (h : takeField s = some (f, r)) : s = f ++ ';' :: r ∧ ';' ∉ f := by
  induction s generalizing f r with
  | nil => simp [takeField] at h
  | cons c cs ih =>
    by_cases he : c = ';'
    · subst he
      simp only [takeField, if_true, Option.some.injEq, Prod.mk.injEq] at h
      obtain ⟨h1, h2⟩ := h
      subst h1; subst h2
      simp
    · simp only [takeField, if_neg he] at h
      cases hcs : takeField cs with
      | none => rw [hcs] at h; simp at h
      | some fr =>
        obtain ⟨f1, r1⟩ := fr
        rw [hcs] at h
        simp only [Option.map_some', Option.some.injEq, Prod.mk.injEq] at h
        obtain ⟨h1, h2⟩ := h
        subst h1; subst h2
        obtain ⟨hs, hmem⟩ := ih hcs
        refine ⟨by simp [hs], ?_⟩
        intro hm
        rcases List.mem_cons.mp hm with hm | hm
        · exact he hm.symm
        · exact hmem hm

theorem takeSocket_concat (S : List Char) : takeSocket (S ++ [';']) = some S := by
  induction S with
  | nil => rfl
  | cons c cs ih =>
    cases cs with
    | nil => rfl
    | cons d ds =>
      simp only [List.cons_append] at ih ⊢
      rw [takeSocket, ih]
      rfl

theorem takeSocket_sound {l S : List Char} (h : takeSocket l = some S) :
    l = S ++ [';'] := by
  induction l generalizing S with
  | nil => simp [takeSocket] at h
  | cons c cs ih =>
    cases cs with
    | nil =>
      by_cases hc : c = ';'
      · subst hc
        simp only [takeSocket, if_true, Option.some.injEq] at h
        subst h
        rfl
      · simp [takeSocket, hc] at h
    | cons d ds =>
      rw [takeSocket] at h
      cases hts : takeSocket (d :: ds) with
      | none => rw [hts] at h; simp at h
      | some S' =>
        rw [hts] at h
        simp only [Option.map_some', Option.some.injEq] at h
        subst h
        rw [ih hts]
        rfl

theorem startsWithL_pid_concat (s : List Char) :
    startsWithL pidMarker (s ++ [';']) = startsWithL pidMarker s := by
  match s with
  | [] => rfl
  | [_] => rfl
  | [_, _] => rfl
  | [_, _, _] => rfl
  | _ :: _ :: _ :: _ :: _ => rfl

theorem containsL_pid_concat (s : List Char) :
    containsL pidMarker (s ++ [';']) = containsL pidMarker s := by
  induction s with
  | nil => rfl
  | cons c cs ih =>
    simp only [List.cons_append, containsL, List.append_eq]
    rw [ih]
    have := startsWithL_pid_concat (c :: cs)
    simp only [List.cons_append] at this
    rw [this]

/-! ## Parser round-trip and soundness -/

theorem ucrednetGetL_format (p u : Nat) (S : List Char)
    (hp : p < 2 ^ 32) (hu : u < 2 ^ 32)
    (hS : containsL pidMarker S = false) :
    ucrednetGetL (formatUcrednetAddrL p u S) = some ⟨p, u, S⟩ := by
  have hgp : digitsToNat (goFormatNat p) = p := digitsToNat_goFormatNat p
  have hgu : digitsToNat (goFormatNat u) = u := digitsToNat_goFormatNat u
  unfold formatUcrednetAddrL ucrednetGetL
  rw [List.append_assoc, dropStart_append]
  rw [Option.some_bind, takeField_append _ _ (goFormatNat_no_semi p),
    Option.some_bind]
  rw [if_pos ⟨goFormatNat_ne_nil p, goFormatNat_digits p, by simpa [hgp] using hp⟩]
  rw [List.append_assoc, dropStart_append]
  rw [Option.some_bind, takeField_append _ _ (goFormatNat_no_semi u),
    Option.some_bind]
  rw [if_pos ⟨goFormatNat_ne_nil u, goFormatNat_digits u, by simpa [hgu] using hu⟩]
  rw [List.append_assoc, dropStart_append, Option.some_bind]
  rw [containsL_pid_concat, hS]
  rw [if_neg (by simp), takeSocket_concat, Option.map_some', hgp, hgu]

theorem ucrednetGetL_some_grammar {s : List Char} {u : ucrednet}
    (h : ucrednetGetL s = some u) : matchesUcrednetGrammar s := by
  unfold ucrednetGetL at h
  rw [Option.bind_eq_some] at h
  obtain ⟨s1, h1, h⟩ := h
  rw [Option.bind_eq_some] at h
  obtain ⟨fp2, h2, h⟩ := h
  obtain ⟨fp, s2⟩ := fp2
  by_cases hg1 : fp ≠ [] ∧ fp.all Char.isDigit = true ∧ digitsToNat fp < 2 ^ 32
  case neg => rw [if_neg hg1] at h; simp at h
  rw [if_pos hg1] at h
  rw [Option.bind_eq_some] at h
  obtain ⟨s3, h3, h⟩ := h
  rw [Option.bind_eq_some] at h
  obtain ⟨fu4, h4, h⟩ := h
  obtain ⟨fu, s4⟩ := fu4
  by_cases hg2 : fu ≠ [] ∧ fu.all Char.isDigit = true ∧ digitsToNat fu < 2 ^ 32
  case neg => rw [if_neg hg2] at h; simp at h
  rw [if_pos hg2] at h
  rw [Option.bind_eq_some] at h
  obtain ⟨s5, h5, h⟩ := h
  by_cases hsneak : containsL pidMarker s5 = true
  case pos => rw [if_pos hsneak] at h; simp at h
  rw [if_neg hsneak] at h
  rw [Option.map_eq_some'] at h
  obtain ⟨sk, h6, _⟩ := h
  refine ⟨fp, fu, sk, ?_, hg1.1, hg1.2.1, hg1.2.2, hg2.1, hg2.2.1, hg2.2.2, ?_⟩
  · have e1 := dropStart_sound h1
    have e2 := (takeField_sound h2).1
    have e3 := dropStart_sound h3
    have e4 := (takeField_sound h4).1
    have e5 := dropStart_sound h5
    have e6 := takeSocket_sound h6
    subst e1; subst e2; subst e3; subst e4; subst e5; subst e6
    simp [List.append_assoc]
  · have e6 := takeSocket_sound h6
    rw [e6] at hsneak
    exact Bool.not_eq_true _ ▸ hsneak

/-! ## Claim C2 -/

/-- C2: for every malformed peer-address string — one with an absent uid
field, a uid value of `2^32` or more, any string not matching the grammar
`pid=<P>;uid=<U>;socket=<S>;` exactly, or any string containing a second
occurrence of the `pid=` marker after a complete first field set — the
identity parser (`ucrednetGet` / `ParseIdentity`) returns the single uniform
"no identifiable peer" outcome (`none`, modelling `(nil, errNoID)`), and in
particular never a partially populated identity. -/
theorem claim_C2_malformed_rejected :
    (∀ (P : Nat) (S : List Char),
      ucrednetGetL (pidMarker ++ goFormatNat P ++
        ';' :: (uidMarker ++ ';' :: (socketMarker ++ S ++ [';']))) = none) ∧
    (∀ (P U : Nat) (S : List Char), 2 ^ 32 ≤ U →
      ucrednetGetL (pidMarker ++ goFormatNat P ++
        ';' :: (uidMarker ++ goFormatNat U ++
          ';' :: (socketMarker ++ S ++ [';']))) = none) ∧
    (∀ s : String, ¬ matchesUcrednetGrammar s.data → ucrednetGet s = none) ∧
    (∀ (P U : Nat) (rest : List Char), containsL pidMarker rest = true →
      ucrednetGetL (pidMarker ++ goFormatNat P ++
        ';' :: (uidMarker ++ goFormatNat U ++
          ';' :: (socketMarker ++ rest))) = none) := by
  refine ⟨?_, ?_, ?_, ?_⟩
  · intro P S
    unfold ucrednetGetL
    rw [List.append_assoc, dropStart_append, Option.some_bind,
      takeField_append _ _ (goFormatNat_no_semi P), Option.some_bind]
    by_cases hg : goFormatNat P ≠ [] ∧ (goFormatNat P).all Char.isDigit = true ∧
        digitsToNat (goFormatNat P) < 2 ^ 32
    · rw [if_pos hg, dropStart_append, Option.some_bind]
      rw [show takeField (';' :: (socketMarker ++ S ++ [';'])) =
          some ([], socketMarker ++ S ++ [';']) from rfl, Option.some_bind]
      rw [if_neg (by simp)]
    · rw [if_neg hg]
  · intro P U S hU
    unfold ucrednetGetL
    rw [List.append_assoc, dropStart_append, Option.some_bind,
      takeField_append _ _ (goFormatNat_no_semi P), Option.some_bind]
    by_cases hg : goFormatNat P ≠ [] ∧ (goFormatNat P).all Char.isDigit = true ∧
        digitsToNat (goFormatNat P) < 2 ^ 32
    · rw [if_pos hg, List.append_assoc, dropStart_append, Option.some_bind,
        takeField_append _ _ (goFormatNat_no_semi U), Option.some_bind]
      rw [if_neg ?uidguard]
      case uidguard =>
        rintro ⟨h1', h2', h3'⟩
        simp only [digitsToNat_goFormatNat] at h3'
        omega
    · rw [if_neg hg]
  · intro s hn
    cases hg : ucrednetGet s with
    | none => rfl
    | some u => exact absurd (ucrednetGetL_some_grammar hg) hn
  · intro P U rest hrest
    unfold ucrednetGetL
    rw [List.append_assoc, dropStart_append, Option.some_bind,
      takeField_append _ _ (goFormatNat_no_semi P), Option.some_bind]
    by_cases hg1 : goFormatNat P ≠ [] ∧ (goFormatNat P).all Char.isDigit = true ∧
        digitsToNat (goFormatNat P) < 2 ^ 32
    · rw [if_pos hg1, List.append_assoc, dropStart_append, Option.some_bind,
        takeField_append _ _ (goFormatNat_no_semi U), Option.some_bind]
      by_cases hg2 : goFormatNat U ≠ [] ∧ (goFormatNat U).all Char.isDigit = true ∧
          digitsToNat (goFormatNat U) < 2 ^ 32
      · rw [if_pos hg2, dropStart_append, Option.some_bind, if_pos hrest]
      · rw [if_neg hg2]
    · rw [if_neg hg1]

/-- C2 witness: the theorem applied at the `TestGetBadUid` input
`pid=100;uid=4294967296;socket=;` (uid `= 2^32`). -/
theorem claim_C2_malformed_rejected_witness :
    2 ^ 32 ≤ 4294967296 ∧
      ucrednetGet "pid=100;uid=4294967296;socket=;" = none := by
  refine ⟨by norm_num, ?_⟩
  exact claim_C2_malformed_rejected.2.1 100 4294967296 [] (by norm_num)

/-! ## Claim C9 -/

/-- C9 counterexample: the round-trip fails as universally stated. The valid
identity `(100, 42, "a;pid=0;uid=0;socket=b")` formats to an address whose
tail contains a second `pid=` block, so the parser's §4.2 anti-smuggling
rule rejects it instead of returning the identity. -/
theorem claim_C9_counterexample :
    ucrednetGet (formatUcrednetAddr 100 42 "a;pid=0;uid=0;socket=b") ≠
      some ⟨100, 42, ("a;pid=0;uid=0;socket=b" : String).data⟩ := by
  decide

/-- C9 (amended): for every valid identity — pid and uid below `2^32` and a
socket string that does not itself contain the `pid=` marker — parsing the
formatted peer-address string `pid=<P>;uid=<U>;socket=<S>;` returns exactly
that identity with no error: `ucrednetGet` is a left inverse of the address
formatter on such identities. -/
theorem claim_C9_roundtrip (p u : Nat) (S : String)
    (hp : p < 2 ^ 32) (hu : u < 2 ^ 32)
    (hS : containsL pidMarker S.data = false) :
    ucrednetGet (formatUcrednetAddr p u S) = some ⟨p, u, S.data⟩ :=
  ucrednetGetL_format p u S.data hp hu hS

/-- C9 witness: the round-trip instantiated at the `TestGet` identity
`(100, 42, "/run/snap.socket")`. -/
theorem claim_C9_roundtrip_witness :
    100 < 2 ^ 32 ∧ 42 < 2 ^ 32 ∧
      containsL pidMarker ("/run/snap.socket" : String).data = false ∧
      ucrednetGet (formatUcrednetAddr 100 42 "/run/snap.socket") =
        some ⟨100, 42, ("/run/snap.socket" : String).data⟩ :=
  ⟨by norm_num, by norm_num, by decide,
    claim_C9_roundtrip 100 42 "/run/snap.socket" (by norm_num) (by norm_num)
      (by decide)⟩

/-! ## Claim C1 -/

/-- C1 counterexample: the claim states that when resolving the kernel peer
credentials fails, `Accept` still succeeds and returns the connection with
an empty identity. The in-repo test `TestUcredErrors`
(`ucrednet_test.go:127-146`) pins the opposite behavior — `Accept` returns
the `getUcred` error (`c.Assert(err, Equals, s.err)`) — so on a Unix
connection with a failing OS call, `Accept` fails. -/
theorem claim_C1_counterexample :
    ucrednetAccept (Except.ok ⟨true, ['x']⟩) (Except.error "oopsie") =
      Except.error "oopsie" := rfl

/-- C1 (amended): for every connection accepted by the peer-credential
listener: an error from the wrapped listener's own `Accept` propagates; a
connection type that does not support credential resolution yields a
successful accept with an empty identity (empty pid and uid fields in the
reported address); a Unix connection with successfully resolved credentials
yields a successful accept whose reported address carries them; and a Unix
connection whose OS credential call fails makes `Accept` fail with that
error (per `TestUcredErrors`), not succeed with an empty identity. -/
theorem claim_C1_accept (acceptRes : Except String rawConn)
    (getUcredRes : Except String (Nat × Nat)) :
    (∀ e, acceptRes = .error e →
      ucrednetAccept acceptRes getUcredRes = .error e) ∧
    (∀ conn, acceptRes = .ok conn → conn.isUnix = false →
      ucrednetAccept acceptRes getUcredRes =
        .ok ⟨emptyUcrednetAddrL conn.remoteAddr⟩) ∧
    (∀ conn pu, acceptRes = .ok conn → conn.isUnix = true →
      getUcredRes = .ok pu →
      ucrednetAccept acceptRes getUcredRes =
        .ok ⟨formatUcrednetAddrL pu.1 pu.2 conn.remoteAddr⟩) ∧
    (∀ conn e, acceptRes = .ok conn → conn.isUnix = true →
      getUcredRes = .error e →
      ucrednetAccept acceptRes getUcredRes = .error e) := by
  refine ⟨?_, ?_, ?_, ?_⟩
  · rintro e rfl
    rfl
  · rintro conn rfl hnu
    simp [ucrednetAccept, hnu]
  · rintro conn pu rfl hu rfl
    simp [ucrednetAccept, hu]
  · rintro conn e rfl hu rfl
    simp [ucrednetAccept, hu]

/-- C1 witness: the amended theorem applied to a non-Unix (TCP) connection,
as in `TestNonUnix` — accept succeeds with the empty `pid=;uid=;...`
identity. -/
theorem claim_C1_accept_witness :
    (Except.ok (⟨false, ['t']⟩ : rawConn) : Except String rawConn) =
        Except.ok ⟨false, ['t']⟩ ∧
      ucrednetAccept (Except.ok ⟨false, ['t']⟩) (Except.ok (100, 42)) =
        Except.ok ⟨emptyUcrednetAddrL ['t']⟩ :=
  ⟨rfl, (claim_C1_accept (Except.ok ⟨false, ['t']⟩) (Except.ok (100, 42))).2.1
    ⟨false, ['t']⟩ rfl rfl⟩

/-! ## Ensure scheduling lemmas and claim C3 -/

theorem ensureBefore_min (s : EnsureSched) (now d : Nat)
    (hinv : s.timer = some s.next) :
    ensureBefore s now d =
      some ⟨some (min s.next (now + d)), min s.next (now + d)⟩ := by
  obtain ⟨t, nx⟩ := s
  simp only at hinv
  subst hinv
  unfold ensureBefore
  simp only
  by_cases h1 : now + d < nx
  · rw [if_pos h1]
    simp [Nat.min_eq_right (Nat.le_of_lt h1)]
  · rw [if_neg h1]
    have hmin : min nx (now + d) = nx := Nat.min_eq_left (by omega)
    by_cases h2 : nx < now
    · rw [if_pos h2, if_pos (by omega : nx ≤ now)]
      simp [hmin]
    · rw [if_neg h2]
      simp [hmin]

theorem ensureBeforeMany_min (now : Nat) (ds : List Nat) :
    ∀ s : EnsureSched, s.timer = some s.next →
      ensureBeforeMany s now ds =
        some ⟨some (ds.foldl (fun m d => min m (now + d)) s.next),
          ds.foldl (fun m d => min m (now + d)) s.next⟩ := by
  induction ds with
  | nil =>
    intro s hinv
    obtain ⟨t, nx⟩ := s
    simp only at hinv
    subst hinv
    rfl
  | cons d ds ih =>
    intro s hinv
    rw [List.foldl_cons]
    unfold ensureBeforeMany
    rw [ensureBefore_min s now d hinv]
    exact ih ⟨some (min s.next (now + d)), min s.next (now + d)⟩ rfl

/-- C3: with `Loop` started (timer armed) and the `ensureLock` invariant
that the armed timer's expiry equals the recorded deadline `ensureNext`, a
call to `EnsureBefore(d)` never makes the recorded next deadline later than
it was; if `now + d` is earlier than the current deadline, the deadline
becomes `now + d`; if the current deadline has already elapsed, the timer
fires no later than `now` (immediately); and repeated calls, from any
tasks, converge to the earliest requested deadline. -/
theorem claim_C3_ensure_before (s : EnsureSched) (now : Nat)
    (hinv : s.timer = some s.next) :
    (∀ d, ∃ s1, ensureBefore s now d = some s1 ∧ s1.next ≤ s.next) ∧
    (∀ d, now + d < s.next →
      ∃ s1, ensureBefore s now d = some s1 ∧ s1.next = now + d) ∧
    (∀ d, s.next < now →
      ∃ s1 e, ensureBefore s now d = some s1 ∧ s1.timer = some e ∧ e ≤ now) ∧
    (∀ ds : List Nat, ∃ s1, ensureBeforeMany s now ds = some s1 ∧
      s1.next = ds.foldl (fun m d => min m (now + d)) s.next) := by
  refine ⟨?_, ?_, ?_, ?_⟩
  · intro d
    exact ⟨_, ensureBefore_min s now d hinv, Nat.min_le_left _ _⟩
  · intro d hd
    exact ⟨_, ensureBefore_min s now d hinv,
      Nat.min_eq_right (Nat.le_of_lt hd)⟩
  · intro d hd
    refine ⟨_, min s.next (now + d), ensureBefore_min s now d hinv, rfl, ?_⟩
    have := Nat.min_le_left s.next (now + d)
    omega
  · intro ds
    exact ⟨_, ensureBeforeMany_min now ds s hinv, rfl⟩

/-- C3 witness: deadline 100, clock 10, requests for 5 and then 50 time
units converge to the earliest requested deadline `15`. -/
theorem claim_C3_ensure_before_witness :
    (⟨some 100, 100⟩ : EnsureSched).timer =
        some (⟨some 100, 100⟩ : EnsureSched).next ∧
      ∃ s1, ensureBeforeMany ⟨some 100, 100⟩ 10 [5, 50] = some s1 ∧
        s1.next = [5, 50].foldl (fun m d => min m (10 + d)) 100 :=
  ⟨rfl, (claim_C3_ensure_before ⟨some 100, 100⟩ 10 rfl).2.2.2 [5, 50]⟩

/-! ## Settle lemmas and claim C4 -/

theorem settleGo_not_converging (env : SettleEnv) (timeout cdur : Nat)
    (ht : 0 < timeout) (hc : 0 < cdur) (hm : ∀ i, env.moved i = true) :
    ∀ fuel i errs, i ≤ timeout / cdur + 1 → timeout / cdur + 1 - i < fuel →
      settleGo env timeout cdur fuel i errs =
        some (settleTimeoutOutcome
          (errs ++ ((List.range' i (timeout / cdur + 1 - i)).map env.cycleErrs).flatten)) := by
  intro fuel
  induction fuel with
  | zero =>
    intro i errs _ h2
    omega
  | succ fuel ih =>
    intro i errs h1 h2
    by_cases hstop : timeout < i * cdur
    · have hi : i = timeout / cdur + 1 := by
        rcases Nat.lt_or_ge i (timeout / cdur + 1) with h | h
        · exfalso
          have hle : i ≤ timeout / cdur := by omega
          have : i * cdur ≤ (timeout / cdur) * cdur :=
            Nat.mul_le_mul_right _ hle
          have := Nat.div_mul_le_self timeout cdur
          omega
        · omega
      subst hi
      rw [settleGo, if_pos ⟨ht, hstop⟩]
      simp
    · rw [settleGo, if_neg (fun hcon => hstop hcon.2)]
      have hiM : i ≤ timeout / cdur := by
        have : i * cdur ≤ timeout := by omega
        exact (Nat.le_div_iff_mul_le hc).mpr this
      simp only [hm i, Bool.true_eq_false, false_and, if_false]
      rw [ih (i + 1) (errs ++ env.cycleErrs i) (by omega) (by omega)]
      congr 1
      rw [List.append_assoc]
      congr 1
      rw [show timeout / cdur + 1 - i = (timeout / cdur + 1 - (i + 1)) + 1 by omega,
        List.range'_succ]
      simp

/-- C4: for every call to `Settle` with a non-zero timeout, over work that
never converges (every cycle moves the recorded deadline — a handler that
perpetually requests retry / a new earlier ensure), `settle` terminates
(sufficient fuel is never exhausted) and returns the "Settle is not
converging" convergence-failure outcome, aggregating every per-cycle ensure
error observed before the timeout (cycles `0 .. timeout/cdur`) into one
composite `ensureError`. -/
theorem claim_C4_settle_not_converging (env : SettleEnv)
    (timeout cdur fuel : Nat) (ht : 0 < timeout) (hc : 0 < cdur)
    (hf : timeout + 2 ≤ fuel) (hm : ∀ i, env.moved i = true) :
    settleModel env timeout cdur fuel =
      some (settleTimeoutOutcome
        (((List.range (timeout / cdur + 1)).map env.cycleErrs).flatten)) := by
  unfold settleModel
  have hdiv : timeout / cdur ≤ timeout := Nat.div_le_self _ _
  have hfuel : timeout / cdur + 1 - 0 < fuel :=
    calc timeout / cdur + 1 - 0 = timeout / cdur + 1 := rfl
      _ ≤ timeout + 1 := Nat.succ_le_succ hdiv
      _ < fuel := by omega
  have h := settleGo_not_converging env timeout cdur ht hc hm fuel 0 []
    (Nat.zero_le _) hfuel
  simpa [List.range_eq_range'] using h

/-- C4 witness: a cycle that errors with "boom" and always re-queues work,
timeout 3 with unit cycle duration: four cycles run, then `Settle` fails
with the aggregate of the four errors plus the convergence error. -/
theorem claim_C4_settle_not_converging_witness :
    0 < 3 ∧
      settleModel ⟨fun _ => ["boom"], fun _ => true, fun _ => false⟩ 3 1 5 =
        some (SettleOutcome.ensureErrs
          ["boom", "boom", "boom", "boom", "Settle is not converging"]) := by
  refine ⟨by norm_num, ?_⟩
  have h := claim_C4_settle_not_converging
    ⟨fun _ => ["boom"], fun _ => true, fun _ => false⟩ 3 1 5
    (by norm_num) (by norm_num) (by norm_num) (fun i => rfl)
  rw [h]
  rfl

/-! ## Overlord Stop / prune lemmas and claim C8 -/

theorem loopRun_didPrune (ticks : List Bool) :
    ∀ s : OverlordSt, (loopRun s ticks).1.didPrune = (s.didPrune || ticks.any id) := by
  induction ticks with
  | nil =>
    intro s
    simp [loopRun]
  | cons t ts ih =>
    intro s
    unfold loopRun
    rw [ih]
    cases t with
    | true => simp [loopTick, overlordPrune]
    | false => simp [loopTick]

/-- C8: over any overlord lifetime (any sequence of loop iterations with or
without prune-ticker fires, starting with no prune run), `didPrune` holds
iff some prune pass ran; if none ran before `Stop`, `Stop` runs exactly one
prune pass, placed after the loop shutdown and before stopping the engine's
managers and releasing the state lock; if one already ran, `Stop` runs no
additional prune pass. -/
theorem claim_C8_stop_prunes_once (ticks : List Bool) (loopErr : Option String) :
    ((loopRun ⟨false⟩ ticks).1.didPrune = ticks.any id) ∧
    (ticks.any id = false →
      (overlordStop (loopRun ⟨false⟩ ticks).1 loopErr).2.1 =
        [.killLoop, .waitLoop, .pruneRun, .stopEngine, .releaseLock]) ∧
    (ticks.any id = true →
      (overlordStop (loopRun ⟨false⟩ ticks).1 loopErr).2.1 =
        [.killLoop, .waitLoop, .stopEngine, .releaseLock]) := by
  have hd := loopRun_didPrune ticks ⟨false⟩
  simp only [Bool.false_or] at hd
  refine ⟨hd, ?_, ?_⟩
  · intro hnone
    simp [overlordStop, overlordPrune, hd, hnone]
  · intro hsome
    simp [overlordStop, hd, hsome]

/-- C8 witness: a lifetime of two prune-free iterations; `Stop` emits
exactly one prune pass, before engine stop and lock release. -/
theorem claim_C8_stop_prunes_once_witness :
    ([false, false].any id = false) ∧
      (overlordStop (loopRun ⟨false⟩ [false, false]).1 none).2.1 =
        [.killLoop, .waitLoop, .pruneRun, .stopEngine, .releaseLock] :=
  ⟨rfl, (claim_C8_stop_prunes_once [false, false] none).2.1 rfl⟩

/-! ## Daemon Stop: claim C5 -/

/-- C5 counterexample: with a socket-preserving restart flagged and standby
opinions still agreeing, a hard (non-deadline) error from the shutdown wait
is propagated — `Stop` returns that internal error, not the
`ErrRestartSocket` sentinel the claim promises in this case. -/
theorem claim_C5_counterexample :
    daemonStop true true (some (TombErr.other "boom")) =
      ⟨true, false, some (StopErr.internal "boom")⟩ ∧
    (daemonStop true true (some (TombErr.other "boom"))).result ≠
      some StopErr.errRestartSocket := by
  refine ⟨rfl, ?_⟩
  decide

/-- C5 (amended): for every `Daemon.Stop` call with a socket-preserving
restart flagged: if after request draining the standby opinions no longer
all agree, the restart is downgraded (`restartSocket` cleared) and the
sentinel is never returned; if they still agree and the shutdown wait
produced no hard error (nil, or `context.DeadlineExceeded` which is a soft
failure), `Stop` returns the `ErrRestartSocket` sentinel; a hard internal
error from the wait is propagated instead of the sentinel; and with no
restart flagged, `Stop` returns no error or a propagated internal error. -/
theorem claim_C5_stop (restartSocket canStandby : Bool)
    (tombWaitErr : Option TombErr) :
    (restartSocket = true → canStandby = false →
      (daemonStop restartSocket canStandby tombWaitErr).restartSocket = false ∧
      (daemonStop restartSocket canStandby tombWaitErr).result ≠
        some StopErr.errRestartSocket) ∧
    (restartSocket = true → canStandby = true →
      (tombWaitErr = none ∨ tombWaitErr = some TombErr.deadlineExceeded) →
      (daemonStop restartSocket canStandby tombWaitErr).result =
        some StopErr.errRestartSocket) ∧
    (∀ m, restartSocket = true → canStandby = true →
      tombWaitErr = some (TombErr.other m) →
      (daemonStop restartSocket canStandby tombWaitErr).result =
        some (StopErr.internal m)) ∧
    (restartSocket = false →
      (daemonStop restartSocket canStandby tombWaitErr).result = none ∨
      ∃ m, (daemonStop restartSocket canStandby tombWaitErr).result =
        some (StopErr.internal m)) := by
  refine ⟨?_, ?_, ?_, ?_⟩
  · rintro rfl rfl
    cases tombWaitErr with
    | none => simp [daemonStop]
    | some e =>
      cases e with
      | deadlineExceeded => simp [daemonStop]
      | other m => simp [daemonStop]
  · rintro rfl rfl (rfl | rfl) <;> simp [daemonStop]
  · rintro m rfl rfl rfl
    simp [daemonStop]
  · rintro rfl
    cases tombWaitErr with
    | none => left; simp [daemonStop]
    | some e =>
      cases e with
      | deadlineExceeded => left; simp [daemonStop]
      | other m => right; exact ⟨m, by simp [daemonStop]⟩

/-- C5 witness: flagged restart, standby opinions agreeing, clean shutdown
wait — `Stop` returns the `ErrRestartSocket` sentinel. -/
theorem claim_C5_stop_witness :
    (true = true) ∧
      (daemonStop true true none).result = some StopErr.errRestartSocket :=
  ⟨rfl, (claim_C5_stop true true none).2.1 rfl rfl (Or.inl rfl)⟩

/-! ## Command dispatch: claims C6, C7, C10 -/

/-- C6: for every dispatched request (with a bound connection and resolved
peer credentials): if the routed command has no handler registered for the
request's verb — including any verb other than GET, PUT, POST, for which
the dispatch switch selects nothing — `Run` returns the method-not-allowed
(HTTP 405) error response; if a handler is registered but no access checker
is configured for its access class, `Run` returns an internal-error
(HTTP 500) response; in both cases the event trace is empty, so no access
check ran and no handler was invoked — the request is never silently
permitted. -/
theorem claim_C6_dispatch_fail_closed (c : command) (conn : Conn)
    (peerCred : Conn → Except String Ucred) (ucred : Ucred)
    (method : Method) (allowHeader : String)
    (hcred : peerCred conn = Except.ok ucred) :
    (selectHandler c method = none →
      commandRun c (some conn) peerCred method allowHeader =
        some (.err (statusMethodNotAllowed
          ("method \"" ++ methodName method ++ "\" not allowed")), [])) ∧
    (∀ name, method = Method.other name → selectHandler c method = none) ∧
    (∀ rsp, selectHandler c method = some rsp →
      selectAccess c method = none →
      commandRun c (some conn) peerCred method allowHeader =
        some (.err (statusInternalError
          ("no access checker for method \"" ++ methodName method ++ "\"")), [])) := by
  refine ⟨?_, ?_, ?_⟩
  · intro hh
    simp [commandRun, hcred, hh]
  · rintro name rfl
    rfl
  · intro rsp hh ha
    simp [commandRun, hcred, hh, ha]

/-- C6 witness: the `TestCommandMethodDispatchMethodNotAllowed` scenario —
POST with a nil POST handler yields the 405 response and an empty event
trace. -/
theorem claim_C6_dispatch_fail_closed_witness :
    selectHandler ⟨some (response.handlerResp 0), some (response.handlerResp 0),
        none, some (fun _ _ => none), some (fun _ _ => none)⟩ Method.POST = none ∧
      commandRun ⟨some (response.handlerResp 0), some (response.handlerResp 0),
          none, some (fun _ _ => none), some (fun _ _ => none)⟩
        (some ⟨0⟩) (fun _ => Except.ok ⟨100, 1001, 1001⟩) Method.POST "" =
        some (.err (statusMethodNotAllowed "method \"POST\" not allowed"), []) := by
  refine ⟨rfl, ?_⟩
  exact (claim_C6_dispatch_fail_closed
    ⟨some (response.handlerResp 0), some (response.handlerResp 0),
      none, some (fun _ _ => none), some (fun _ _ => none)⟩
    ⟨0⟩ (fun _ => Except.ok ⟨100, 1001, 1001⟩) ⟨100, 1001, 1001⟩
    Method.POST "" rfl).1 rfl

/-- C7: for every dispatched request with a registered handler and access
checker: a denial (the checker returning a structured error) is returned
immediately as the response with only the access-check event — the handler
is never invoked; and on every possible run of the dispatch, a
handler-invocation event occurs only in the trace
`[accessChecked, handlerInvoked]`, i.e. access evaluation completes
strictly before the handler is invoked, regardless of how header parsing
or identity resolution are interleaved. -/
theorem claim_C7_access_before_handler (c : command) (connCtx : Option Conn)
    (peerCred : Conn → Except String Ucred) (method : Method)
    (allowHeader : String) :
    (∀ conn ucred rsp chk ae, connCtx = some conn →
      peerCred conn = Except.ok ucred →
      selectHandler c method = some rsp → selectAccess c method = some chk →
      chk ucred (parseAllowInteraction allowHeader) = some ae →
      commandRun c connCtx peerCred method allowHeader =
        some (.err ae, [.accessChecked])) ∧
    (∀ r evs, commandRun c connCtx peerCred method allowHeader =
        some (r, evs) →
      RunEvent.handlerInvoked ∈ evs →
      evs = [.accessChecked, .handlerInvoked]) := by
  constructor
  · rintro conn ucred rsp chk ae rfl hcred hh ha hchk
    simp [commandRun, hcred, hh, ha, hchk]
  · intro r evs h hmem
    unfold commandRun at h
    cases connCtx with
    | none => simp at h
    | some conn =>
      simp only [] at h
      cases hcred : peerCred conn with
      | error e =>
        rw [hcred] at h
        simp only [Option.some.injEq, Prod.mk.injEq] at h
        obtain ⟨h1, h2⟩ := h
        subst h2
        simp at hmem
      | ok ucred =>
        rw [hcred] at h
        simp only [] at h
        cases hh : selectHandler c method with
        | none =>
          rw [hh] at h
          simp only [Option.some.injEq, Prod.mk.injEq] at h
          obtain ⟨h1, h2⟩ := h
          subst h2
          simp at hmem
        | some rsp =>
          rw [hh] at h
          simp only [] at h
          cases ha : selectAccess c method with
          | none =>
            rw [ha] at h
            simp only [Option.some.injEq, Prod.mk.injEq] at h
            obtain ⟨h1, h2⟩ := h
            subst h2
            simp at hmem
          | some chk =>
            rw [ha] at h
            simp only [] at h
            cases hchk : chk ucred (parseAllowInteraction allowHeader) with
            | some ae =>
              rw [hchk] at h
              simp only [Option.some.injEq, Prod.mk.injEq] at h
              obtain ⟨h1, h2⟩ := h
              subst h2
              simp at hmem
            | none =>
              rw [hchk] at h
              simp only [Option.some.injEq, Prod.mk.injEq] at h
              obtain ⟨h1, h2⟩ := h
              subst h2
              rfl

/-- C7 witness: the `TestCommandMethodDispatchGetDenied` scenario — a
checker denying with a 401 error short-circuits with exactly the
access-check event, no handler invocation. -/
theorem claim_C7_access_before_handler_witness :
    ((fun (_ : Ucred) (_ : Bool) => some (apiError.mk 401 "access denied" ""))
        ⟨100, 1001, 1001⟩ (parseAllowInteraction "") =
      some (apiError.mk 401 "access denied" "")) ∧
      commandRun ⟨some (response.handlerResp 7), none, none,
          some (fun _ _ => some (apiError.mk 401 "access denied" "")), none⟩
        (some ⟨0⟩) (fun _ => Except.ok ⟨100, 1001, 1001⟩) Method.GET "" =
        some (.err (apiError.mk 401 "access denied" ""), [.accessChecked]) := by
  refine ⟨rfl, ?_⟩
  exact (claim_C7_access_before_handler
    ⟨some (response.handlerResp 7), none, none,
      some (fun _ _ => some (apiError.mk 401 "access denied" "")), none⟩
    (some ⟨0⟩) (fun _ => Except.ok ⟨100, 1001, 1001⟩) Method.GET "").1
    ⟨0⟩ ⟨100, 1001, 1001⟩ (response.handlerResp 7) _ _ rfl rfl rfl rfl rfl

/-- C10: for every request dispatched through `command.Run` whose context
carries a bound connection, if obtaining that connection's peer credentials
fails, `Run` returns an internal-error (HTTP 500) response carrying the
error message, with an empty event trace — neither any access checker nor
any handler runs; with a bound connection `Run` always returns a response
(never panics); and only when the request context carries no bound
connection at all does `Run` panic (the `none` result). -/
theorem claim_C10_conn_and_cred (c : command) (connCtx : Option Conn)
    (peerCred : Conn → Except String Ucred) (method : Method)
    (allowHeader : String) :
    (∀ conn e, connCtx = some conn → peerCred conn = Except.error e →
      commandRun c connCtx peerCred method allowHeader =
        some (.err (statusInternalError e), [])) ∧
    (∀ conn, connCtx = some conn →
      ∃ out, commandRun c connCtx peerCred method allowHeader = some out) ∧
    (connCtx = none →
      commandRun c connCtx peerCred method allowHeader = none) := by
  refine ⟨?_, ?_, ?_⟩
  · rintro conn e rfl hcred
    simp [commandRun, hcred]
  · rintro conn rfl
    unfold commandRun
    simp only []
    cases hcred : peerCred conn with
    | error e => exact ⟨_, rfl⟩
    | ok ucred =>
      simp only []
      cases hh : selectHandler c method with
      | none => exact ⟨_, rfl⟩
      | some rsp =>
        simp only []
        cases ha : selectAccess c method with
        | none => exact ⟨_, rfl⟩
        | some chk =>
          simp only []
          cases hchk : chk ucred (parseAllowInteraction allowHeader) with
          | some ae => exact ⟨_, rfl⟩
          | none => exact ⟨_, rfl⟩
  · rintro rfl
    rfl

/-- C10 witness: the `TestCommandMethodDispatchPeerCredErr` scenario — the
`ErrNoPeerCred` message comes back as a 500 `apiError` and nothing else
ran. -/
theorem claim_C10_conn_and_cred_witness :
    ((fun (_ : Conn) => (Except.error "connection has no peer credential" :
        Except String Ucred)) ⟨0⟩ =
      Except.error "connection has no peer credential") ∧
      commandRun ⟨some (response.handlerResp 1), none, none,
          some (fun _ _ => none), none⟩ (some ⟨0⟩)
        (fun _ => Except.error "connection has no peer credential")
        Method.GET "" =
        some (.err (statusInternalError "connection has no peer credential"),
          []) := by
  refine ⟨rfl, ?_⟩
  exact (claim_C10_conn_and_cred
    ⟨some (response.handlerResp 1), none, none,
      some (fun _ _ => none), none⟩ (some ⟨0⟩)
    (fun _ => Except.error "connection has no peer credential")
    Method.GET "").1 ⟨0⟩ "connection has no peer credential" rfl rfl

end Fdemanager
